import Mathlib

/-!
Verification development for the paper-benchmark harness.

The Rust sources embedded here:
  * `src/access.rs`  — the 25-byte trace record codec (`Access`, `Command`),
  * `src/client.rs`  — the worker (`BenchmarkClient`): event loop and the
    lookaside / read-through strategies,
  * `src/stats.rs`   — the statistics collector (`Stats`) and its merge,
  * `src/main.rs`    — the dispatcher: ping burst, trace replay, ordering check.

Machine integers are modelled as `Nat` with explicit `% 2 ^ w` where the code
can overflow; byte buffers are `List Nat`; fallible code returns
`Except String` / `Except PaperClientError`.  External effects (the network,
the wall clock, the channel) are modelled as explicit oracles consumed in
program order.
-/

deriving instance DecidableEq for Except

/-- `Command` from `src/access.rs`: the operation tag of a trace record. -/
inductive Command
| get
| set
deriving DecidableEq, Repr

/-- `Access` from `src/access.rs`: one decoded trace record. -/
structure Access where
  timestamp : Nat
  command : Command
  key : String
  value : List Nat
  ttl : Option Nat
deriving DecidableEq, Repr

/-- Little-endian byte encoding of `n` on `w` bytes (`to_le_bytes`);
each byte is `n / 256 ^ i % 256`, so the value is taken mod `256 ^ w`. -/
def toLeBytes (n w : Nat) : List Nat :=
  (List.range w).map (fun i => n / 256 ^ i % 256)

/-- Little-endian byte decoding (`read_uNN::<LittleEndian>`). -/
def fromLeBytes (bs : List Nat) : Nat :=
  bs.foldr (fun b acc => b + 256 * acc) 0

/-- Rust `str::parse::<u64>`: an optional leading `+` sign followed by at
least one ASCII digit, rejecting values that do not fit in 64 bits. -/
def parseU64 (s : String) : Option Nat :=
  let ds := if s.data.head? = some '+' then s.data.drop 1 else s.data
  if ds = [] then none
  else if ds.all (fun c => c.isDigit) then
    let n := ds.foldl (fun acc c => acc * 10 + (c.toNat - 48)) 0
    if n < 2 ^ 64 then some n else none
  else none

/-- `Command::as_byte` from `src/access.rs`. -/
def Command.as_byte : Command → Nat
| .get => 0
| .set => 1

/-- `Command::from_byte` from `src/access.rs`: only `0` (Get) and `1` (Set)
are accepted. -/
def Command.from_byte (b : Nat) : Except String Command :=
  if b = 0 then .ok .get
  else if b = 1 then .ok .set
  else .error "Invalid command byte."

/-- `<Access as WriteChunk>::as_chunk` from `src/access.rs`: encoding fails
when the key does not parse as `u64`; otherwise it emits
timestamp (8 bytes LE) ++ command byte ++ key (8 LE) ++ value length as
`u32` (4 LE) ++ `ttl.unwrap_or(0)` (4 LE). -/
def Access.as_chunk (a : Access) : Except String (List Nat) :=
  match parseU64 a.key with
  | none => .error "Invalid access key."
  | some key =>
      .ok (toLeBytes a.timestamp 8 ++ ([a.command.as_byte] ++ (toLeBytes key 8 ++
           (toLeBytes (a.value.length % 2 ^ 32) 4 ++ toLeBytes (a.ttl.getD 0) 4))))

/-- `<Access as ReadChunk>::new` from `src/access.rs`: reads the five fields
in order through a cursor (fixed offsets 0, 8, 9, 17, 21); each short read or
an unrecognized command byte yields an `InvalidData` error with the source's
message, in the source's order (the length guards reproduce the cursor's
remaining-bytes checks).  The value is rebuilt as a zero-filled buffer of the
declared size, and a wire ttl of `0` is mapped to `none`. -/
def Access.new (buf : List Nat) : Except String Access :=
  if buf.length < 8 then .error "Invalid access key."
  else if buf.length < 9 then .error "Invalid access command."
  else
    match Command.from_byte (buf.getD 8 0) with
    | .error e => .error e
    | .ok command =>
        if buf.length < 17 then .error "Invalid access key."
        else if buf.length < 21 then .error "Invalid access size."
        else if buf.length < 25 then .error "Invalid access ttl."
        else
          .ok { timestamp := fromLeBytes (buf.take 8),
                command,
                key := toString (fromLeBytes ((buf.drop 9).take 8)),
                value := List.replicate (fromLeBytes ((buf.drop 17).take 4)) 0,
                ttl := if fromLeBytes ((buf.drop 21).take 4) = 0 then none
                       else some (fromLeBytes ((buf.drop 21).take 4)) }

example :
    Access.as_chunk { timestamp := 42, command := .set, key := "7",
                      value := [9, 9, 9], ttl := some 5 } =
      .ok [42, 0, 0, 0, 0, 0, 0, 0, 1, 7, 0, 0, 0, 0, 0, 0, 0, 3, 0, 0, 0, 5, 0, 0, 0] := by
  decide

example :
    Access.new [42, 0, 0, 0, 0, 0, 0, 0, 1, 7, 0, 0, 0, 0, 0, 0, 0, 3, 0, 0, 0, 5, 0, 0, 0] =
      .ok { timestamp := 42, command := .set, key := "7",
            value := [0, 0, 0], ttl := some 5 } := by
  decide

theorem toLeBytes_length (n w : Nat) : (toLeBytes n w).length = w := by
  simp [toLeBytes]

theorem toLeBytes_succ (n w : Nat) :
    toLeBytes n (w + 1) = n % 256 :: toLeBytes (n / 256) w := by
  unfold toLeBytes
  rw [List.range_succ_eq_map, List.map_cons, List.map_map]
  refine congrArg₂ _ (by simp) ?_
  refine List.map_congr_left ?_
  intro i _
  have h : (256 : Nat) ^ (i + 1) = 256 * 256 ^ i := by ring
  simp [Function.comp, Nat.succ_eq_add_one, h, Nat.div_div_eq_div_mul]

theorem fromLeBytes_toLeBytes (n w : Nat) :
    fromLeBytes (toLeBytes n w) = n % 256 ^ w := by
  induction w generalizing n with
  | zero => simp [toLeBytes, fromLeBytes, Nat.mod_one]
  | succ w ih =>
      rw [toLeBytes_succ]
      show n % 256 + 256 * fromLeBytes (toLeBytes (n / 256) w) = n % 256 ^ (w + 1)
      rw [ih]
      have h : (256 : Nat) ^ (w + 1) = 256 * 256 ^ w := by ring
      rw [h, Nat.mod_mul]

theorem parseU64_lt (s : String) (k : Nat) (h : parseU64 s = some k) : k < 2 ^ 64 := by
  unfold parseU64 at h
  split_ifs at h <;> simp_all <;> omega

theorem from_byte_as_byte (c : Command) : Command.from_byte c.as_byte = .ok c := by
  cases c <;> rfl

theorem from_byte_ok (b : Nat) (c : Command) (h : Command.from_byte b = .ok c) :
    b = c.as_byte := by
  unfold Command.from_byte at h
  split_ifs at h with h0 h1
  · cases h; simpa [Command.as_byte] using h0
  · cases h; simpa [Command.as_byte] using h1

/-- Decoding a buffer made of five well-sized field groups recovers each
field group independently. -/
theorem Access.new_append (T K S L : List Nat) (cb : Nat) (c : Command)
    (hT : T.length = 8) (hK : K.length = 8) (hS : S.length = 4) (hL : L.length = 4)
    (hcb : Command.from_byte cb = .ok c) :
    Access.new (T ++ ([cb] ++ (K ++ (S ++ L)))) =
      .ok { timestamp := fromLeBytes T, command := c,
            key := toString (fromLeBytes K),
            value := List.replicate (fromLeBytes S) 0,
            ttl := if fromLeBytes L = 0 then none else some (fromLeBytes L) } := by
  have hlen : (T ++ ([cb] ++ (K ++ (S ++ L)))).length = 25 := by
    simp [hT, hK, hS, hL]
  have h1 : (T ++ ([cb] ++ (K ++ (S ++ L)))).take 8 = T := List.take_left' hT
  have h2 : (T ++ ([cb] ++ (K ++ (S ++ L)))).getD 8 0 = cb := by
    rw [List.getD_append_right _ _ _ _ (le_of_eq hT), hT]
    rfl
  have e3 : T ++ ([cb] ++ (K ++ (S ++ L))) = (T ++ [cb]) ++ (K ++ (S ++ L)) := by
    simp
  have h3 : ((T ++ ([cb] ++ (K ++ (S ++ L)))).drop 9).take 8 = K := by
    rw [e3, List.drop_left' (by simp [hT]), List.take_left' hK]
  have e4 : T ++ ([cb] ++ (K ++ (S ++ L))) = ((T ++ [cb]) ++ K) ++ (S ++ L) := by
    simp
  have h4 : ((T ++ ([cb] ++ (K ++ (S ++ L)))).drop 17).take 4 = S := by
    rw [e4, List.drop_left' (by simp [hT, hK]), List.take_left' hS]
  have e5 : T ++ ([cb] ++ (K ++ (S ++ L))) = (((T ++ [cb]) ++ K) ++ S) ++ L := by
    simp
  have h5 : ((T ++ ([cb] ++ (K ++ (S ++ L)))).drop 21).take 4 = L := by
    rw [e5, List.drop_left' (by simp [hT, hK, hS]), List.take_of_length_le (le_of_eq hL)]
  unfold Access.new
  rw [h2, hcb, h1, h3, h4, h5, hlen]
  norm_num

/-- C1 (counterexample): the round-trip claim fails as stated.  For the
record `{timestamp 1, Get, key "3", value [7], ttl Some 0}` — whose key
parses as an unsigned 64-bit integer — decoding the 25-byte encoding
succeeds but yields `ttl = none`, not `some 0`: the encoder writes
`ttl.unwrap_or(0)` and the decoder maps a wire ttl of `0` back to `none`. -/
theorem as_chunk_new_ttl_zero :
    (Access.as_chunk { timestamp := 1, command := .get, key := "3",
                       value := [7], ttl := some 0 }).bind Access.new =
      .ok { timestamp := 1, command := .get, key := "3",
            value := [0], ttl := none } ∧
    (none : Option Nat) ≠ some 0 := by
  decide

/-- C1 (amended): for every record whose key string parses as an unsigned
64-bit integer, whose machine-typed fields are in range, and whose ttl is
not `some 0`, decoding the 25-byte encoding succeeds and reproduces the
timestamp, the command, the numeric key (as its canonical decimal string),
the value length (as a zero-filled value of the same length), and the ttl. -/
theorem as_chunk_new_roundtrip (r : Access) (k : Nat)
    (hk : parseU64 r.key = some k)
    (ht : r.timestamp < 2 ^ 64)
    (hv : r.value.length < 2 ^ 32)
    (httl : match r.ttl with | none => True | some v => 0 < v ∧ v < 2 ^ 32) :
    ∃ buf, Access.as_chunk r = .ok buf ∧ buf.length = 25 ∧
      Access.new buf = .ok { timestamp := r.timestamp, command := r.command,
                             key := toString k,
                             value := List.replicate r.value.length 0,
                             ttl := r.ttl } := by
  have hk64 : k < 2 ^ 64 := parseU64_lt r.key k hk
  have henc : Access.as_chunk r =
      .ok (toLeBytes r.timestamp 8 ++ ([r.command.as_byte] ++ (toLeBytes k 8 ++
           (toLeBytes (r.value.length % 2 ^ 32) 4 ++ toLeBytes (r.ttl.getD 0) 4)))) := by
    unfold Access.as_chunk
    rw [hk]
  refine ⟨_, henc, by simp [toLeBytes_length], ?_⟩
  rw [Access.new_append _ _ _ _ _ r.command (toLeBytes_length _ 8) (toLeBytes_length _ 8)
        (toLeBytes_length _ 4) (toLeBytes_length _ 4) (from_byte_as_byte _)]
  have h256 : (256 : Nat) ^ 8 = 2 ^ 64 := by norm_num
  have h2564 : (256 : Nat) ^ 4 = 2 ^ 32 := by norm_num
  have hts : fromLeBytes (toLeBytes r.timestamp 8) = r.timestamp := by
    rw [fromLeBytes_toLeBytes, h256, Nat.mod_eq_of_lt ht]
  have hkey : fromLeBytes (toLeBytes k 8) = k := by
    rw [fromLeBytes_toLeBytes, h256, Nat.mod_eq_of_lt hk64]
  have hsz : fromLeBytes (toLeBytes (r.value.length % 2 ^ 32) 4) = r.value.length := by
    rw [fromLeBytes_toLeBytes, h2564, Nat.mod_mod_of_dvd _ dvd_rfl, Nat.mod_eq_of_lt hv]
  have httl' : fromLeBytes (toLeBytes (r.ttl.getD 0) 4) = r.ttl.getD 0 := by
    rw [fromLeBytes_toLeBytes, h2564]
    cases hc : r.ttl with
    | none => simp
    | some v =>
        rw [hc] at httl
        simp only [Option.getD_some]
        exact Nat.mod_eq_of_lt httl.2
  rw [hts, hkey, hsz, httl']
  cases hc : r.ttl with
  | none => simp
  | some v =>
      rw [hc] at httl
      simp [Nat.pos_iff_ne_zero.mp httl.1]

/-- C1 (witness): the amended round-trip theorem applied to the spec's own
example record `{timestamp 42, Set, key "7", 3-byte value, ttl Some 5}`. -/
theorem as_chunk_new_roundtrip_witness :
    ∃ buf, Access.as_chunk { timestamp := 42, command := .set, key := "7",
                             value := [9, 9, 9], ttl := some 5 } = .ok buf ∧
      buf.length = 25 ∧
      Access.new buf = .ok { timestamp := 42, command := .set, key := toString 7,
                             value := List.replicate 3 0, ttl := some 5 } :=
  as_chunk_new_roundtrip
    { timestamp := 42, command := .set, key := "7", value := [9, 9, 9], ttl := some 5 }
    7 (by decide) (by decide) (by decide) (by decide)

/-- C7: decoding malformed input fails with a data-validation error and
never yields a partially-populated or default-substituted record: (1) any
buffer shorter than 25 bytes fails; (2) any buffer long enough to reach the
command byte whose command byte is neither `0` nor `1` fails; (3) whenever
decoding succeeds, the buffer supplied all five fields and every field of
the returned record is determined by its bytes (the decoder is a total
function, so it never panics). -/
theorem new_malformed (buf : List Nat) :
    (buf.length < 25 → ∃ e, Access.new buf = .error e) ∧
    (9 ≤ buf.length → buf.getD 8 0 ≠ 0 → buf.getD 8 0 ≠ 1 →
      ∃ e, Access.new buf = .error e) ∧
    (∀ a, Access.new buf = .ok a →
      25 ≤ buf.length ∧
      buf.getD 8 0 = a.command.as_byte ∧
      a.timestamp = fromLeBytes (buf.take 8) ∧
      a.key = toString (fromLeBytes ((buf.drop 9).take 8)) ∧
      a.value = List.replicate (fromLeBytes ((buf.drop 17).take 4)) 0 ∧
      a.ttl = (if fromLeBytes ((buf.drop 21).take 4) = 0 then none
               else some (fromLeBytes ((buf.drop 21).take 4)))) := by
  refine ⟨?_, ?_, ?_⟩
  · intro h
    unfold Access.new
    by_cases h1 : buf.length < 8
    · simp [h1]
    · by_cases h2 : buf.length < 9
      · simp [h1, h2]
      · cases hc : Command.from_byte (buf.getD 8 0) with
        | error e => simp [h1, h2, hc]
        | ok c =>
            by_cases h3 : buf.length < 17
            · simp [h1, h2, hc, h3]
            · by_cases h4 : buf.length < 21
              · simp [h1, h2, hc, h3, h4]
              · simp [h1, h2, hc, h3, h4, h]
  · intro h9 hb0 hb1
    have hc : Command.from_byte (buf.getD 8 0) = .error "Invalid command byte." := by
      unfold Command.from_byte
      rw [if_neg hb0, if_neg hb1]
    have h1 : ¬ buf.length < 8 := by omega
    have h2 : ¬ buf.length < 9 := by omega
    unfold Access.new
    rw [if_neg h1, if_neg h2, hc]
    exact ⟨_, rfl⟩
  · intro a ha
    unfold Access.new at ha
    split at ha
    · exact Except.noConfusion ha
    split at ha
    · exact Except.noConfusion ha
    split at ha
    · exact Except.noConfusion ha
    rename_i c hc
    split at ha
    · exact Except.noConfusion ha
    split at ha
    · exact Except.noConfusion ha
    split at ha
    · exact Except.noConfusion ha
    rename_i h1 h2 h3 h4 h5
    injection ha with ha
    subst ha
    refine ⟨by omega, ?_, rfl, rfl, rfl, rfl⟩
    exact from_byte_ok _ _ hc

/-- C7 (witness): a 24-byte buffer fails to decode, and so does the spec's
example of a 25-byte buffer whose command byte is `2`. -/
theorem new_malformed_witness :
    (∃ e, Access.new (List.replicate 24 0) = .error e) ∧
    (∃ e, Access.new (List.replicate 8 0 ++ ([2] ++ List.replicate 16 0)) = .error e) :=
  ⟨(new_malformed (List.replicate 24 0)).1 (by decide),
   (new_malformed (List.replicate 8 0 ++ ([2] ++ List.replicate 16 0))).2.1
     (by decide) (by decide) (by decide)⟩

/-- `Stats` from `src/stats.rs`: per-kind `(start_instant, elapsed_duration)`
samples plus running byte totals.  Instants and durations are abstract time
values (`Nat`). -/
structure Stats where
  ping_latencies : List (Nat × Nat) := []
  get_latencies : List (Nat × Nat) := []
  set_latencies : List (Nat × Nat) := []
  get_total_size : Nat := 0
  set_total_size : Nat := 0
deriving DecidableEq, Repr

/-- `Stats::default()`. -/
def Stats.default : Stats := {}

/-- `Stats::store_ping_time`: push one `(instant, elapsed)` sample. -/
def Stats.store_ping_time (s : Stats) (p : Nat × Nat) : Stats :=
  { s with ping_latencies := s.ping_latencies ++ [p] }

/-- `Stats::store_get_time`. -/
def Stats.store_get_time (s : Stats) (p : Nat × Nat) : Stats :=
  { s with get_latencies := s.get_latencies ++ [p] }

/-- `Stats::store_get_size`. -/
def Stats.store_get_size (s : Stats) (n : Nat) : Stats :=
  { s with get_total_size := s.get_total_size + n }

/-- `Stats::store_set_time`. -/
def Stats.store_set_time (s : Stats) (p : Nat × Nat) : Stats :=
  { s with set_latencies := s.set_latencies ++ [p] }

/-- `Stats::store_set_size`. -/
def Stats.store_set_size (s : Stats) (n : Nat) : Stats :=
  { s with set_total_size := s.set_total_size + n }

/-- `merge_times` from `src/stats.rs`: concatenate the two sample lists and
sort by start instant (`sort_unstable_by_key`). -/
def merge_times (times_a times_b : List (Nat × Nat)) : List (Nat × Nat) :=
  List.insertionSort (fun x y => x.1 ≤ y.1) (times_a ++ times_b)

/-- `impl AddAssign for Stats` from `src/stats.rs`: merge each latency list
with `merge_times` and add the size counters. -/
def Stats.add_assign (s rhs : Stats) : Stats :=
  { ping_latencies := merge_times s.ping_latencies rhs.ping_latencies,
    get_latencies := merge_times s.get_latencies rhs.get_latencies,
    set_latencies := merge_times s.set_latencies rhs.set_latencies,
    get_total_size := s.get_total_size + rhs.get_total_size,
    set_total_size := s.set_total_size + rhs.set_total_size }

/-- Equality of collectors as multisets of recorded points per kind and as
sums of the size counters. -/
def Stats.multisetEq (a b : Stats) : Prop :=
  (a.ping_latencies : Multiset (Nat × Nat)) = (b.ping_latencies : Multiset (Nat × Nat)) ∧
  (a.get_latencies : Multiset (Nat × Nat)) = (b.get_latencies : Multiset (Nat × Nat)) ∧
  (a.set_latencies : Multiset (Nat × Nat)) = (b.set_latencies : Multiset (Nat × Nat)) ∧
  a.get_total_size = b.get_total_size ∧
  a.set_total_size = b.set_total_size

theorem merge_times_perm (a b : List (Nat × Nat)) :
    (merge_times a b).Perm (a ++ b) :=
  List.perm_insertionSort _ _

theorem merge_times_coe (a b : List (Nat × Nat)) :
    (merge_times a b : Multiset (Nat × Nat)) = (a : Multiset (Nat × Nat)) + b :=
  (Multiset.coe_eq_coe.mpr (merge_times_perm a b)).trans (Multiset.coe_add _ _)

/-- C6: collector merge (`AddAssign` via `merge_times`) is a commutative
monoid on collectors compared as multisets of recorded `(instant, duration)`
points per kind and as sums of the size counters; merging with the empty
(`default`) collector returns the original collector under that equality. -/
theorem stats_merge_monoid (A B C : Stats) :
    Stats.multisetEq (A.add_assign B) (B.add_assign A) ∧
    Stats.multisetEq ((A.add_assign B).add_assign C) (A.add_assign (B.add_assign C)) ∧
    Stats.multisetEq (A.add_assign Stats.default) A ∧
    Stats.multisetEq (Stats.default.add_assign A) A := by
  simp only [Stats.multisetEq, Stats.add_assign, Stats.default, merge_times_coe]
  refine ⟨⟨add_comm _ _, add_comm _ _, add_comm _ _, by omega, by omega⟩,
          ⟨add_assoc _ _ _, add_assoc _ _ _, add_assoc _ _ _, by omega, by omega⟩,
          ⟨by simp, by simp, by simp, by omega, by omega⟩,
          ⟨by simp, by simp, by simp, by omega, by omega⟩⟩

/-- `total_time` as computed by `print_get_stats` / `print_set_stats` in
`src/stats.rs`: the sum of the individual recorded elapsed durations. -/
def total_time (times : List (Nat × Nat)) : Nat :=
  (times.map (fun p => p.2)).sum

/-- `Stats::print_get_stats` from `src/stats.rs`, restricted to the values
it derives (printing elided): `none` when there are no get samples,
otherwise the average get size (integer division, as the `as u64` cast) and
the bandwidth `get_total_size / total_time` where `total_time` is the SUM of
the recorded elapsed durations. -/
def print_get_stats (s : Stats) : Option (Nat × ℚ) :=
  if s.get_latencies.isEmpty then none
  else some (s.get_total_size / s.get_latencies.length,
             (s.get_total_size : ℚ) / (total_time s.get_latencies : ℚ))

/-- `Stats::print_set_stats` from `src/stats.rs`, same shape as
`print_get_stats` but over the set samples. -/
def print_set_stats (s : Stats) : Option (Nat × ℚ) :=
  if s.set_latencies.isEmpty then none
  else some (s.set_total_size / s.set_latencies.length,
             (s.set_total_size : ℚ) / (total_time s.set_latencies : ℚ))

/-- The wall-clock span of a sample list from its first to its last
recorded start instant.  Stated from the claim's words, for comparison with
the code's formula. -/
def wallClockSpan (times : List (Nat × Nat)) : Nat :=
  (times.getLast?.map Prod.fst).getD 0 - (times.head?.map Prod.fst).getD 0

/-- The bandwidth the claim describes: total bytes divided by the
first-to-last wall-clock span.  Stated from the claim's words. -/
def specBandwidth (total : Nat) (times : List (Nat × Nat)) : ℚ :=
  (total : ℚ) / (wallClockSpan times : ℚ)

/-- C3 (counterexample): for a collector with two get samples starting at
instants 0 and 10, each of elapsed duration 2, and 8 bytes transferred, the
code reports bandwidth `8 / (2 + 2) = 2` (total bytes over the SUM of
elapsed durations), while the claim's formula gives `8 / (10 - 0) = 4/5`;
the two disagree, refuting the claim. -/
theorem bandwidth_not_wallclock :
    print_get_stats { get_latencies := [(0, 2), (10, 2)], get_total_size := 8 } =
      some (4, (2 : ℚ)) ∧
    specBandwidth 8 [(0, 2), (10, 2)] = (4 / 5 : ℚ) ∧
    (2 : ℚ) ≠ (4 / 5 : ℚ) := by
  refine ⟨?_, ?_, by norm_num⟩
  · simp [print_get_stats, total_time]
    norm_num
  · simp [specBandwidth, wallClockSpan]
    norm_num

/-- C3 (amended): for each operation kind with at least one sample, the
reported bandwidth equals the total bytes recorded for that kind divided by
the sum of the individual elapsed durations — not by the wall-clock span
from the first to the last recorded start instant. -/
theorem print_stats_bandwidth (s : Stats)
    (hg : s.get_latencies ≠ []) (hs : s.set_latencies ≠ []) :
    print_get_stats s =
      some (s.get_total_size / s.get_latencies.length,
            (s.get_total_size : ℚ) / (total_time s.get_latencies : ℚ)) ∧
    print_set_stats s =
      some (s.set_total_size / s.set_latencies.length,
            (s.set_total_size : ℚ) / (total_time s.set_latencies : ℚ)) := by
  constructor <;> simp [print_get_stats, print_set_stats, hg, hs]

/-- C3 (witness): the amended bandwidth theorem applied to a concrete
collector with one get and one set sample. -/
theorem print_stats_bandwidth_witness :
    print_get_stats { get_latencies := [(0, 2)], set_latencies := [(1, 5)],
                      get_total_size := 6, set_total_size := 10 } =
      some (6, (6 : ℚ) / (2 : ℚ)) ∧
    print_set_stats { get_latencies := [(0, 2)], set_latencies := [(1, 5)],
                      get_total_size := 6, set_total_size := 10 } =
      some (10, (10 : ℚ) / (5 : ℚ)) :=
  print_stats_bandwidth
    { get_latencies := [(0, 2)], set_latencies := [(1, 5)],
      get_total_size := 6, set_total_size := 10 }
    (by decide) (by decide)

/-- `PaperClientError` from the `paper_client` crate, at the granularity the
worker distinguishes: the cache-miss class (`CacheError(_)`), the internal
error the worker itself raises on a non-UTF-8 value, and every other error
class. -/
inductive PaperClientError
| cacheError
| internal
| otherError
deriving DecidableEq, Repr

/-- The value payload a get RPC returns: its bytes, and whether the
`TryInto<&str>` conversion the worker performs succeeds (UTF-8 validity —
external to this repository). -/
structure RpcValue where
  bytes : List Nat
  utf8 : Bool
deriving DecidableEq, Repr

/-- The network oracle: queued responses for the worker's get, set and ping
RPCs, each paired with the elapsed duration of the call, consumed in program
order. -/
structure Net where
  getR : List ((Except PaperClientError RpcValue) × Nat) := []
  setR : List ((Except PaperClientError Unit) × Nat) := []
  pingR : List ((Except PaperClientError Unit) × Nat) := []
deriving DecidableEq, Repr

/-- The RPC calls a worker issues, in order (used to state which requests
reach the target service). -/
inductive RpcCall
| ping
| get (key : String)
| set (key : String) (value : List Nat) (ttl : Option Nat)
deriving DecidableEq, Repr

/-- `ClientType` from `src/client.rs`. -/
inductive ClientType
| lookaside
| readThrough
deriving DecidableEq, Repr

/-- `ClientEvent` from `src/client.rs`. -/
inductive ClientEvent
| ping
| access (a : Access)
deriving DecidableEq, Repr

/-- The worker's mutable state during `run()`: its private `Stats`, the
network oracle, the current instant (`Instant::now()` as an abstract clock
advanced by each RPC's duration) and the log of issued RPC calls. -/
structure WState where
  stats : Stats := {}
  net : Net := {}
  now : Nat := 0
  calls : List RpcCall := []
deriving DecidableEq, Repr

/-- `BenchmarkClient::handle_ping` from `src/client.rs`: records the elapsed
time under ping on success, propagates any error. -/
def handle_ping (st : WState) : Except PaperClientError WState :=
  match st.net.pingR with
  | [] => .error .otherError
  | (res, dur) :: rest =>
      let start := st.now
      let st' : WState :=
        { st with net := { st.net with pingR := rest },
                  calls := st.calls ++ [.ping],
                  now := st.now + dur }
      match res with
      | .error e => .error e
      | .ok _ => .ok { st' with stats := st'.stats.store_ping_time (start, dur) }

/-- `BenchmarkClient::handle_lookaside` from `src/client.rs`.  `Get`: the
elapsed time is stored under get both on success and on a cache-miss-class
error; a successful value is converted to `&str` (failure is the worker's
`Internal` error) and its byte length added to the get-size total; any
non-cache error is returned.  `Set`: issues the set RPC and on success
stores elapsed time and the value's length under set; any error is
returned. -/
def handle_lookaside (st : WState) (a : Access) : Except PaperClientError WState :=
  match a.command with
  | .get =>
      match st.net.getR with
      | [] => .error .otherError
      | (res, dur) :: rest =>
          let start := st.now
          let st' : WState :=
            { st with net := { st.net with getR := rest },
                      calls := st.calls ++ [.get a.key],
                      now := st.now + dur }
          match res with
          | .ok v =>
              let st'' := { st' with stats := st'.stats.store_get_time (start, dur) }
              if v.utf8 then
                .ok { st'' with stats := st''.stats.store_get_size v.bytes.length }
              else .error .internal
          | .error e =>
              if e = .cacheError then
                .ok { st' with stats := st'.stats.store_get_time (start, dur) }
              else .error e
  | .set =>
      match st.net.setR with
      | [] => .error .otherError
      | (res, dur) :: rest =>
          let size := a.value.length
          let start := st.now
          let st' : WState :=
            { st with net := { st.net with setR := rest },
                      calls := st.calls ++ [.set a.key a.value a.ttl],
                      now := st.now + dur }
          match res with
          | .error e => .error e
          | .ok _ =>
              .ok { st' with stats :=
                      (st'.stats.store_set_time (start, dur)).store_set_size size }

/-- `BenchmarkClient::handle_read_through` from `src/client.rs`: `Set`
events are no-ops; a `Get` that hits records under get (with the same
`&str` conversion as lookaside); a `Get` that misses (cache-error class)
issues one compensating set with the record's key, value and ttl and records
its elapsed time and the record value's length under set; any other error —
from the initial get or from the compensating set — is returned. -/
def handle_read_through (st : WState) (a : Access) : Except PaperClientError WState :=
  match a.command with
  | .set => .ok st
  | .get =>
      match st.net.getR with
      | [] => .error .otherError
      | (res, dur) :: rest =>
          let get_start := st.now
          let st' : WState :=
            { st with net := { st.net with getR := rest },
                      calls := st.calls ++ [.get a.key],
                      now := st.now + dur }
          match res with
          | .ok v =>
              let st'' := { st' with stats := st'.stats.store_get_time (get_start, dur) }
              if v.utf8 then
                .ok { st'' with stats := st''.stats.store_get_size v.bytes.length }
              else .error .internal
          | .error e =>
              if e = .cacheError then
                match st'.net.setR with
                | [] => .error .otherError
                | (res2, dur2) :: rest2 =>
                    let size := a.value.length
                    let set_start := st'.now
                    let st2 : WState :=
                      { st' with net := { st'.net with setR := rest2 },
                                 calls := st'.calls ++ [.set a.key a.value a.ttl],
                                 now := st'.now + dur2 }
                    match res2 with
                    | .error e2 => .error e2
                    | .ok _ =>
                        .ok { st2 with stats :=
                                (st2.stats.store_set_time (set_start, dur2)).store_set_size size }
              else .error e

/-- `BenchmarkClient::handle_access` from `src/client.rs`: dispatch on the
configured strategy. -/
def handle_access (ct : ClientType) (st : WState) (a : Access) :
    Except PaperClientError WState :=
  match ct with
  | .lookaside => handle_lookaside st a
  | .readThrough => handle_read_through st a

/-- `handle_ping` / `handle_access` dispatched on the received event. -/
def handle_event (ct : ClientType) (st : WState) : ClientEvent →
    Except PaperClientError WState
| .ping => handle_ping st
| .access a => handle_access ct st a

/-- One outcome of `recv_timeout(5s)` on the event channel: an event, an
idle timeout, or disconnection (channel closed and drained). -/
inductive RecvResult
| ok (e : ClientEvent)
| timeout
| disconnected
deriving DecidableEq, Repr

/-- `BenchmarkClient::run` from `src/client.rs` over a given sequence of
channel outcomes: `while let Ok(event) = recv_timeout(5s)` handles events
until the first receive that is NOT `Ok` — a timeout or a disconnect both
end the loop — then returns `Ok(stats)`; an event-handler error is returned
as the run's error. -/
def run (ct : ClientType) (st : WState) : List RecvResult → Except PaperClientError Stats
| [] => .ok st.stats
| .timeout :: _ => .ok st.stats
| .disconnected :: _ => .ok st.stats
| .ok e :: rest =>
    match handle_event ct st e with
    | .error err => .error err
    | .ok st' => run ct st' rest

/-- C2 (counterexample): blocking idle past the 5s timeout does NOT make
`run()` fail.  With the first receive outcome being a timeout (channel not
yet closed), `while let Ok(event)` exits the loop — it does not distinguish
`Timeout` from `Disconnected` — and `run` falls through to `Ok(stats)`,
returning normally, where the claim says it returns an error. -/
theorem run_timeout_returns_ok :
    run .lookaside {} [RecvResult.timeout] = .ok ({} : Stats) ∧
    (run .lookaside {} [RecvResult.timeout]).isOk = true := by
  decide

/-- C2 (amended): `run()` returns normally with the stats collected so far
when the channel is closed and drained (disconnected receive) AND equally
when it has blocked idle past the 5s timeout; the only error it returns is
one produced by handling a received event. -/
theorem run_termination (ct : ClientType) (st : WState) (rest : List RecvResult) :
    run ct st (RecvResult.disconnected :: rest) = .ok st.stats ∧
    run ct st (RecvResult.timeout :: rest) = .ok st.stats ∧
    run ct st [] = .ok st.stats ∧
    (∀ e err, handle_event ct st e = .error err →
       run ct st (RecvResult.ok e :: rest) = .error err) := by
  refine ⟨rfl, rfl, rfl, ?_⟩
  intro e err h
  simp [run, h]

/-- C2 (witness): the amended theorem at concrete inputs — a timeout
returns the current stats, and a failing event handler's error is
returned. -/
theorem run_termination_witness :
    run ClientType.lookaside {} [RecvResult.timeout] = .ok ({} : WState).stats ∧
    run ClientType.lookaside {} [RecvResult.ok ClientEvent.ping] =
      .error PaperClientError.otherError :=
  ⟨(run_termination ClientType.lookaside {} []).2.1,
   (run_termination ClientType.lookaside {} []).2.2.2 ClientEvent.ping
     PaperClientError.otherError (by decide)⟩

/-- C4: lookaside on a `Get` event: on a hit the elapsed time is recorded
under get and the returned value's byte length is added to the get-size
total; on a cache-miss-class error the elapsed time is still recorded under
get, nothing else changes, and the handler returns `ok` (so `run` continues
with the subsequent events); any other error class is returned as fatal
without recording. -/
theorem handle_lookaside_get (st : WState) (a : Access) (dur : Nat)
    (hcmd : a.command = .get) :
    (∀ v rest, st.net.getR = (.ok v, dur) :: rest → v.utf8 = true →
       handle_lookaside st a = .ok
         { stats := (st.stats.store_get_time (st.now, dur)).store_get_size v.bytes.length,
           net := { st.net with getR := rest },
           now := st.now + dur,
           calls := st.calls ++ [.get a.key] }) ∧
    (∀ rest, st.net.getR = (.error .cacheError, dur) :: rest →
       handle_lookaside st a = .ok
         { stats := st.stats.store_get_time (st.now, dur),
           net := { st.net with getR := rest },
           now := st.now + dur,
           calls := st.calls ++ [.get a.key] }) ∧
    (∀ e rest, st.net.getR = (.error e, dur) :: rest → e ≠ .cacheError →
       handle_lookaside st a = .error e) ∧
    (∀ rest rs, st.net.getR = (.error .cacheError, dur) :: rest →
       run .lookaside st (RecvResult.ok (.access a) :: rs) =
         run .lookaside
           { stats := st.stats.store_get_time (st.now, dur),
             net := { st.net with getR := rest },
             now := st.now + dur,
             calls := st.calls ++ [.get a.key] } rs) := by
  refine ⟨?_, ?_, ?_, ?_⟩
  · intro v rest h hu
    simp [handle_lookaside, hcmd, h, hu]
  · intro rest h
    simp [handle_lookaside, hcmd, h]
  · intro e rest h he
    simp [handle_lookaside, hcmd, h, he]
  · intro rest rs h
    simp [run, handle_event, handle_access, handle_lookaside, hcmd, h]

/-- C4 (witness): the lookaside theorem at a concrete miss: the get latency
sample is recorded and the handler succeeds. -/
theorem handle_lookaside_get_witness :
    handle_lookaside
      { net := { getR := [(.error .cacheError, 3)] } }
      { timestamp := 0, command := .get, key := "1", value := [], ttl := none } =
      .ok { stats := ({} : Stats).store_get_time (0, 3),
            net := {}, now := 3, calls := [RpcCall.get "1"] } :=
  (handle_lookaside_get
      { net := { getR := [(.error .cacheError, 3)] } }
      { timestamp := 0, command := .get, key := "1", value := [], ttl := none }
      3 rfl).2.1 [] rfl

/-- C5: read-through strategy: a `Set` event is a no-op; a `Get` that hits
records latency and size under get; a `Get` that misses issues exactly one
compensating set RPC with the record's key, value and ttl (visible in the
call log) and records that latency and the record value's length under set
— the get-latency list and get-size total are untouched. -/
theorem handle_read_through_spec (st : WState) (a : Access) (dur : Nat) :
    (a.command = .set → handle_read_through st a = .ok st) ∧
    (∀ v rest, a.command = .get → st.net.getR = (.ok v, dur) :: rest → v.utf8 = true →
       handle_read_through st a = .ok
         { stats := (st.stats.store_get_time (st.now, dur)).store_get_size v.bytes.length,
           net := { st.net with getR := rest },
           now := st.now + dur,
           calls := st.calls ++ [.get a.key] }) ∧
    (∀ rest dur2 rest2, a.command = .get →
       st.net.getR = (.error .cacheError, dur) :: rest →
       st.net.setR = (.ok (), dur2) :: rest2 →
       handle_read_through st a = .ok
         { stats := (st.stats.store_set_time (st.now + dur, dur2)).store_set_size
                      a.value.length,
           net := { st.net with getR := rest, setR := rest2 },
           now := st.now + dur + dur2,
           calls := st.calls ++ [.get a.key, .set a.key a.value a.ttl] }) := by
  refine ⟨?_, ?_, ?_⟩
  · intro hcmd
    simp [handle_read_through, hcmd]
  · intro v rest hcmd h hu
    simp [handle_read_through, hcmd, h, hu]
  · intro rest dur2 rest2 hcmd hg hs
    simp [handle_read_through, hcmd, hg, hs]

/-- C5 (witness): the read-through theorem at a concrete miss with a
successful compensating set. -/
theorem handle_read_through_spec_witness :
    handle_read_through
      { net := { getR := [(.error .cacheError, 2)], setR := [(.ok (), 5)] } }
      { timestamp := 0, command := .get, key := "9", value := [1, 2], ttl := some 4 } =
      .ok { stats := (({} : Stats).store_set_time (2, 5)).store_set_size 2,
            net := {}, now := 7,
            calls := [RpcCall.get "9", RpcCall.set "9" [1, 2] (some 4)] } :=
  (handle_read_through_spec
      { net := { getR := [(.error .cacheError, 2)], setR := [(.ok (), 5)] } }
      { timestamp := 0, command := .get, key := "9", value := [1, 2], ttl := some 4 }
      2).2.2 [] 5 [] rfl rfl rfl

/-- `BenchmarkClient` from `src/client.rs`, at the granularity `main` sees:
its private stats and its configured strategy (the connection handle and
event receiver are external). -/
structure BenchmarkClient where
  stats : Stats := {}
  client_type : ClientType
deriving DecidableEq, Repr

/-- `BenchmarkClient::new` from `src/client.rs`: connect, optional auth and
wipe are external IO; the struct literal it returns always sets
`client_type: ClientType::Lookaside`. -/
def BenchmarkClient.new : BenchmarkClient :=
  { stats := {}, client_type := .lookaside }

/-- `BenchmarkClient::with_client_type` from `src/client.rs` (present in
the source but never called by `main`). -/
def BenchmarkClient.with_client_type (c : BenchmarkClient) (ct : ClientType) :
    BenchmarkClient :=
  { c with client_type := ct }

/-- The worker pool `main` constructs (`src/main.rs`, the
`(0..args.clients).map(|_| BenchmarkClient::new(..))` loop): `n` clients
built by `BenchmarkClient::new`, with no call to `with_client_type`. -/
def mainClients (n : Nat) : List BenchmarkClient :=
  (List.range n).map (fun _ => BenchmarkClient.new)

/-- C10: every worker the orchestrator constructs has `client_type =
Lookaside`, so `handle_access` always dispatches to the lookaside handler
and the read-through handler is unreachable in every run. -/
theorem main_clients_lookaside (n : Nat) (c : BenchmarkClient)
    (hc : c ∈ mainClients n) :
    c.client_type = .lookaside ∧
    (∀ st a, handle_access c.client_type st a = handle_lookaside st a) := by
  have h : c = BenchmarkClient.new := by
    simp only [mainClients, List.mem_map] at hc
    obtain ⟨i, _, hi⟩ := hc
    exact hi.symm
  subst h
  exact ⟨rfl, fun st a => rfl⟩

/-- C10 (witness): the lookaside-only theorem applied to a member of the
default 4-worker pool. -/
theorem main_clients_lookaside_witness :
    BenchmarkClient.new.client_type = ClientType.lookaside :=
  (main_clients_lookaside 4 BenchmarkClient.new (by decide)).1

/-- The native-time replay loop of `main` (`src/main.rs`): for each record,
compare its timestamp with the previously sent record's (`unwrap_or` the
record's own timestamp for the first); a decreasing timestamp panics
("Invalid timestamp order.") before the record is sent; otherwise the
record is sent (the `spin_sleep` pacing does not affect which records are
sent).  Returns the list of sent records and whether the loop panicked. -/
def dispatchNative (prev : Option Nat) : List Access → List Access × Bool
| [] => ([], false)
| a :: rest =>
    let p := prev.getD a.timestamp
    if p > a.timestamp then ([], true)
    else
      let r := dispatchNative (some a.timestamp) rest
      (a :: r.1, r.2)

/-- Timestamps of `l` are non-decreasing, starting no lower than `p`. -/
def tsChain : Nat → List Access → Prop
| _, [] => True
| p, a :: rest => p ≤ a.timestamp ∧ tsChain a.timestamp rest

theorem tsChain_iff_chain (l : List Access) (a : Access) :
    tsChain a.timestamp l ↔
      List.Chain (fun x y => x.timestamp ≤ y.timestamp) a l := by
  induction l generalizing a with
  | nil => simp [tsChain]
  | cons b rest ih =>
      rw [List.chain_cons]
      show a.timestamp ≤ b.timestamp ∧ tsChain b.timestamp rest ↔ _
      rw [ih b]

theorem dispatchNative_some_spec (as : List Access) :
    ∀ p : Nat,
      (dispatchNative (some p) as).1 =
        as.take (dispatchNative (some p) as).1.length ∧
      tsChain p (dispatchNative (some p) as).1 ∧
      ((dispatchNative (some p) as).2 = false ↔ tsChain p as) ∧
      ((dispatchNative (some p) as).2 = false →
        (dispatchNative (some p) as).1 = as) := by
  induction as with
  | nil =>
      intro p
      exact ⟨rfl, trivial, by simp [dispatchNative, tsChain], fun _ => rfl⟩
  | cons a rest ih =>
      intro p
      by_cases hif : p > a.timestamp
      · have hd : dispatchNative (some p) (a :: rest) = ([], true) := by
          simp [dispatchNative, hif]
        refine ⟨by rw [hd]; rfl, by rw [hd]; trivial, ?_, ?_⟩
        · rw [hd]
          simp [tsChain]
          omega
        · rw [hd]
          simp
      · have hd : dispatchNative (some p) (a :: rest) =
            (a :: (dispatchNative (some a.timestamp) rest).1,
             (dispatchNative (some a.timestamp) rest).2) := by
          simp [dispatchNative, hif]
        obtain ⟨ha, hb, hc, hdd⟩ := ih a.timestamp
        refine ⟨?_, ?_, ?_, ?_⟩
        · rw [hd]
          simpa [List.take] using ha
        · rw [hd]
          exact ⟨by omega, hb⟩
        · rw [hd]
          show _ ↔ p ≤ a.timestamp ∧ tsChain a.timestamp rest
          rw [← hc]
          constructor
          · intro h
            exact ⟨by omega, h⟩
          · intro h
            exact h.2
        · rw [hd]
          intro h
          rw [hdd h]

/-- C8: during native-time replay the dispatcher sends a maximal
timestamp-non-decreasing prefix of the trace: what it sends is always a
prefix of the trace with non-decreasing timestamps (so a record whose
timestamp decreases below its predecessor's is never sent); it panics if
and only if the trace's timestamps are not non-decreasing — the violation is
detected eagerly, before the offending record reaches the channel — and when
no violation exists the whole trace is sent. -/
theorem dispatchNative_ordering (as : List Access) :
    (dispatchNative none as).1 = as.take (dispatchNative none as).1.length ∧
    List.Chain' (fun x y => x.timestamp ≤ y.timestamp) (dispatchNative none as).1 ∧
    ((dispatchNative none as).2 = false ↔
      List.Chain' (fun x y => x.timestamp ≤ y.timestamp) as) ∧
    ((dispatchNative none as).2 = false → (dispatchNative none as).1 = as) := by
  cases as with
  | nil => exact ⟨rfl, trivial, by simp [dispatchNative], fun _ => rfl⟩
  | cons a rest =>
      have hd : dispatchNative none (a :: rest) =
          (a :: (dispatchNative (some a.timestamp) rest).1,
           (dispatchNative (some a.timestamp) rest).2) := by
        simp [dispatchNative]
      obtain ⟨ha, hb, hc, hdd⟩ := dispatchNative_some_spec rest a.timestamp
      refine ⟨?_, ?_, ?_, ?_⟩
      · rw [hd]
        simpa [List.take] using ha
      · rw [hd]
        show List.Chain _ a (dispatchNative (some a.timestamp) rest).1
        exact (tsChain_iff_chain _ a).mp hb
      · rw [hd]
        show _ ↔ List.Chain _ a rest
        rw [← tsChain_iff_chain rest a]
        exact hc
      · rw [hd]
        intro h
        rw [hdd h]

/-- C8 (witness): on the trace with timestamps `[5, 3]` the dispatcher
panics having sent only the maximal non-decreasing prefix `[5]` — the
decreasing record is never sent. -/
theorem dispatchNative_ordering_witness :
    dispatchNative none
      [{ timestamp := 5, command := .get, key := "1", value := [], ttl := none },
       { timestamp := 3, command := .get, key := "2", value := [], ttl := none }] =
      ([{ timestamp := 5, command := .get, key := "1", value := [], ttl := none }],
       true) ∧
    ((dispatchNative none
        [{ timestamp := 5, command := .get, key := "1", value := [], ttl := none },
         { timestamp := 3, command := .get, key := "2", value := [], ttl := none }]).2
      = false →
      (dispatchNative none
        [{ timestamp := 5, command := .get, key := "1", value := [], ttl := none },
         { timestamp := 3, command := .get, key := "2", value := [], ttl := none }]).1 =
        [{ timestamp := 5, command := .get, key := "1", value := [], ttl := none },
         { timestamp := 3, command := .get, key := "2", value := [], ttl := none }]) :=
  ⟨by decide,
   (dispatchNative_ordering
      [{ timestamp := 5, command := .get, key := "1", value := [], ttl := none },
       { timestamp := 3, command := .get, key := "2", value := [], ttl := none }]).2.2.2⟩

/-- `PING_TEST_COUNT` from `src/main.rs`. -/
def PING_TEST_COUNT : Nat := 1000000

/-- The event sequence `main` sends (`src/main.rs`): the fixed ping burst
runs only under `if args.trace_path.is_none()`; when a trace path is given,
its records are sent as `Access` events — through the ordering check in
native-time mode, or with each record's ttl cleared otherwise. -/
def mainEvents (tracePath : Option (List Access)) (native_time : Bool) :
    List ClientEvent :=
  (if tracePath.isNone then List.replicate PING_TEST_COUNT .ping else []) ++
  (match tracePath with
   | none => []
   | some accesses =>
       if native_time then (dispatchNative none accesses).1.map ClientEvent.access
       else accesses.map (fun a => ClientEvent.access { a with ttl := none }))

/-- C9 (counterexample): there is no run that replays a trace AND sends
warm-up pings: for a concrete one-record trace, in both pacing modes the
event sequence `main` produces contains no `Ping` at all — the ping burst
runs only when no trace path is given, so the orchestrator cannot run a
ping warm-up burst before trace traffic. -/
theorem mainEvents_trace_no_pings :
    mainEvents
      (some [{ timestamp := 0, command := .get, key := "1", value := [], ttl := some 2 }])
      true =
      [ClientEvent.access
        { timestamp := 0, command := .get, key := "1", value := [], ttl := some 2 }] ∧
    mainEvents
      (some [{ timestamp := 0, command := .get, key := "1", value := [], ttl := some 2 }])
      false =
      [ClientEvent.access
        { timestamp := 0, command := .get, key := "1", value := [], ttl := none }] := by
  decide

/-- C9 (amended): the ping warm-up burst (fixed count 1,000,000, not
configurable) runs only when no trace path is supplied: a run that replays
a trace sends no ping events at all, and a run without a trace sends only
the ping burst and no trace traffic. -/
theorem mainEvents_ping_burst (t : List Access) (native : Bool) :
    (mainEvents (some t) native).filter
        (fun e => decide (e = ClientEvent.ping)) = [] ∧
    mainEvents none native = List.replicate PING_TEST_COUNT ClientEvent.ping := by
  constructor
  · cases native <;>
      · simp only [mainEvents, Option.isNone_some, Bool.false_eq_true, if_false,
                   List.nil_append, if_true, List.filter_eq_nil_iff]
        intro e he
        simp only [List.mem_map] at he
        obtain ⟨x, _, hx⟩ := he
        subst hx
        simp
  · simp [mainEvents]
